import Mathlib

/-!
Verification development for the `sim-core` simulation kernels of the
complex-systems visualizer.

Modelling conventions:
* Rust `f32`/`f64` scalars are modelled as exact rationals (`ℚ`); decimal
  literals are taken at face value (e.g. `0.5` becomes `1/2`).  Transcendental
  library functions (`ln`, `sqrt`, complex `powf`) have no exact counterpart on
  `ℚ`, so they are collected in a `FloatEnv` parameter over which the theorems
  quantify.
* Rust `usize`/`u32`/`u64` counters are modelled as `Nat`; `u8` grid cells are
  modelled as `Nat` (the sandpile claims are conditioned on the absence of
  `u8` overflow).
* `Vec<T>` becomes `List T`; indexed mutation `v[i] = x` becomes `List.set`,
  indexed reads become `List.getD` (the Rust reads are bounds-guarded at the
  call sites that are modelled here).
* Rust float casts `as u8` truncate toward zero and saturate, which is what
  `u8cast` below implements; `%` on floats is the truncated `fmod`, which is
  `qfmod` below.
-/

namespace SimCore

/-- Truncation of a rational toward zero, the rounding used by Rust float
casts and float `%`. -/
def qtrunc (q : ℚ) : ℤ :=
  if q < 0 then -⌊-q⌋ else ⌊q⌋

/-- Rust float remainder `a % b` (`fmod`, truncated toward zero). -/
def qfmod (a b : ℚ) : ℚ :=
  a - b * (qtrunc (a / b) : ℚ)

/-- Rust `x.clamp(lo, hi)` on floats. -/
def qclamp (q lo hi : ℚ) : ℚ :=
  max lo (min q hi)

/-- Rust `as u8` cast of a float: truncate toward zero, saturate to
`[0, 255]`. -/
def u8cast (q : ℚ) : ℕ :=
  min (qtrunc q).toNat 255

/-- Color representation in RGB format (`Color` in `lib.rs`, three `u8`
channels). -/
structure Color where
  r : ℕ
  g : ℕ
  b : ℕ
deriving DecidableEq, Repr

/-- The fixed non-escaping color `Color::BLACK`. -/
def Color.BLACK : Color := ⟨0, 0, 0⟩

/-- `Color::WHITE`. -/
def Color.WHITE : Color := ⟨255, 255, 255⟩

/-- `Color::RED`. -/
def Color.RED : Color := ⟨255, 0, 0⟩

/-- `Color::GREEN`. -/
def Color.GREEN : Color := ⟨0, 255, 0⟩

/-- `Color::BLUE`. -/
def Color.BLUE : Color := ⟨0, 0, 255⟩

/-- `Color::from_rgb`. -/
def Color.from_rgb (r g b : ℕ) : Color := ⟨r, g, b⟩

/-- `Color::from_hsv` of `lib.rs`, translated over exact rationals. -/
def Color.from_hsv (h s v : ℚ) : Color :=
  let c := v * s
  let x := c * (1 - |qfmod (h / 60) 2 - 1|)
  let m := v - c
  let rgb : ℚ × ℚ × ℚ :=
    if h < 60 then (c, x, 0)
    else if h < 120 then (x, c, 0)
    else if h < 180 then (0, c, x)
    else if h < 240 then (0, x, c)
    else if h < 300 then (x, 0, c)
    else (c, 0, x)
  { r := u8cast ((rgb.1 + m) * 255)
    g := u8cast ((rgb.2.1 + m) * 255)
    b := u8cast ((rgb.2.2 + m) * 255) }

/-- `Color::lerp` of `lib.rs`. -/
def Color.lerp (a b : Color) (t : ℚ) : Color :=
  let t := qclamp t 0 1
  { r := u8cast ((a.r : ℚ) * (1 - t) + (b.r : ℚ) * t)
    g := u8cast ((a.g : ℚ) * (1 - t) + (b.g : ℚ) * t)
    b := u8cast ((a.b : ℚ) * (1 - t) + (b.b : ℚ) * t) }

/-- Color schemes for fractal visualization (`ColorScheme` in `lib.rs`). -/
inductive ColorScheme where
  | Classic | Rainbow | Fire | Ice | Grayscale | Ultra | Sunset | Ocean
  | Plasma | Viridis | Inferno | Magma | Cividis | Turbo | CoolWarm | Spectral
  | Purple | Green | Blues | YellowOrangeBrown | PinkYellow | Neon | Pastel
  | Earth | Copper | Galaxy
deriving DecidableEq, Repr

/-- `ColorScheme::map` of `lib.rs`: palette lookup for a normalized parameter
`t`, with the non-smooth mode quantizing `t` to hundredths first. -/
def ColorScheme.map (scheme : ColorScheme) (t : ℚ) (smooth : Bool) : Color :=
  let t := if smooth then t else (⌊t * 100⌋ : ℚ) / 100
  let t := qclamp t 0 1
  match scheme with
  | .Classic =>
      let hue := t * 360
      let saturation := 1
      let value := if t < 1/2 then 1 else 2 - 2 * t
      Color.from_hsv hue saturation value
  | .Rainbow => Color.from_hsv (t * 360) (8/10) (95/100)
  | .Fire =>
      if t < 33/100 then Color.lerp Color.BLACK Color.RED (t * 3)
      else if t < 66/100 then
        Color.lerp Color.RED (Color.from_rgb 255 165 0) ((t - 33/100) * 3)
      else
        Color.lerp (Color.from_rgb 255 165 0) (Color.from_rgb 255 255 100)
          ((t - 66/100) * 3)
  | .Ice =>
      if t < 1/2 then Color.lerp Color.BLACK Color.BLUE (t * 2)
      else Color.lerp Color.BLUE (Color.from_rgb 100 200 255) ((t - 1/2) * 2)
  | .Grayscale =>
      let intensity := u8cast (t * 255)
      Color.from_rgb intensity intensity intensity
  | .Ultra => Color.from_hsv (qfmod (t * 720) 360) 1 1
  | .Sunset =>
      if t < 25/100 then
        Color.lerp (Color.from_rgb 25 25 112) (Color.from_rgb 138 43 226) (t * 4)
      else if t < 1/2 then
        Color.lerp (Color.from_rgb 138 43 226) (Color.from_rgb 255 69 0)
          ((t - 25/100) * 4)
      else if t < 75/100 then
        Color.lerp (Color.from_rgb 255 69 0) (Color.from_rgb 255 215 0)
          ((t - 1/2) * 4)
      else
        Color.lerp (Color.from_rgb 255 215 0) (Color.from_rgb 255 255 200)
          ((t - 75/100) * 4)
  | .Ocean =>
      if t < 1/2 then
        Color.lerp (Color.from_rgb 0 20 40) (Color.from_rgb 0 105 148) (t * 2)
      else
        Color.lerp (Color.from_rgb 0 105 148) (Color.from_rgb 72 209 204)
          ((t - 1/2) * 2)
  | .Plasma =>
      if t < 33/100 then
        Color.lerp (Color.from_rgb 13 8 135) (Color.from_rgb 183 55 121) (t * 3)
      else if t < 66/100 then
        Color.lerp (Color.from_rgb 183 55 121) (Color.from_rgb 252 136 68)
          ((t - 33/100) * 3)
      else
        Color.lerp (Color.from_rgb 252 136 68) (Color.from_rgb 240 249 33)
          ((t - 66/100) * 3)
  | .Viridis =>
      if t < 1/2 then
        Color.lerp (Color.from_rgb 68 1 84) (Color.from_rgb 59 82 139) (t * 2)
      else
        Color.lerp (Color.from_rgb 59 82 139) (Color.from_rgb 253 231 37)
          ((t - 1/2) * 2)
  | .Inferno =>
      if t < 33/100 then
        Color.lerp (Color.from_rgb 0 0 4) (Color.from_rgb 106 23 110) (t * 3)
      else if t < 66/100 then
        Color.lerp (Color.from_rgb 106 23 110) (Color.from_rgb 237 93 36)
          ((t - 33/100) * 3)
      else
        Color.lerp (Color.from_rgb 237 93 36) (Color.from_rgb 252 255 164)
          ((t - 66/100) * 3)
  | .Magma =>
      if t < 1/2 then
        Color.lerp (Color.from_rgb 0 0 4) (Color.from_rgb 124 48 147) (t * 2)
      else
        Color.lerp (Color.from_rgb 124 48 147) (Color.from_rgb 252 253 191)
          ((t - 1/2) * 2)
  | .Cividis => Color.lerp (Color.from_rgb 0 32 77) (Color.from_rgb 253 231 97) t
  | .Turbo => Color.from_hsv (t * 300) (9/10) (95/100)
  | .CoolWarm =>
      if t < 1/2 then
        Color.lerp (Color.from_rgb 59 76 192) (Color.from_rgb 221 221 221) (t * 2)
      else
        Color.lerp (Color.from_rgb 221 221 221) (Color.from_rgb 180 4 38)
          ((t - 1/2) * 2)
  | .Spectral => Color.from_hsv ((1 - t) * 280) (8/10) (9/10)
  | .Purple => Color.lerp (Color.from_rgb 30 0 50) (Color.from_rgb 200 100 255) t
  | .Green => Color.lerp (Color.from_rgb 0 50 20) (Color.from_rgb 100 255 150) t
  | .Blues => Color.lerp (Color.from_rgb 8 29 88) (Color.from_rgb 158 202 225) t
  | .YellowOrangeBrown =>
      if t < 1/2 then
        Color.lerp (Color.from_rgb 255 255 178) (Color.from_rgb 254 178 76) (t * 2)
      else
        Color.lerp (Color.from_rgb 254 178 76) (Color.from_rgb 127 59 8)
          ((t - 1/2) * 2)
  | .PinkYellow =>
      Color.lerp (Color.from_rgb 255 105 180) (Color.from_rgb 255 255 100) t
  | .Neon => Color.from_hsv (t * 360) 1 1
  | .Pastel => Color.from_hsv (t * 360) (3/10) (95/100)
  | .Earth =>
      if t < 1/2 then
        Color.lerp (Color.from_rgb 101 67 33) (Color.from_rgb 194 178 128) (t * 2)
      else
        Color.lerp (Color.from_rgb 194 178 128) (Color.from_rgb 135 169 107)
          ((t - 1/2) * 2)
  | .Copper => Color.lerp Color.BLACK (Color.from_rgb 255 138 76) t
  | .Galaxy =>
      if t < 33/100 then
        Color.lerp (Color.from_rgb 10 5 30) (Color.from_rgb 70 30 100) (t * 3)
      else if t < 66/100 then
        Color.lerp (Color.from_rgb 70 30 100) (Color.from_rgb 130 80 200)
          ((t - 33/100) * 3)
      else
        Color.lerp (Color.from_rgb 130 80 200) (Color.from_rgb 200 150 255)
          ((t - 66/100) * 3)

/-- Abstract model of the transcendental floating-point functions the kernels
call; they have no exact rational counterpart, so theorems quantify over any
interpretation.  `ln` models `f64::ln`, `sqrt` models `f32::sqrt`, `cpowf`
models `num_complex::Complex64::powf`. -/
structure FloatEnv where
  ln : ℚ → ℚ
  sqrt : ℚ → ℚ
  cpowf : ℚ × ℚ → ℚ → ℚ × ℚ

/-- A concrete interpretation of the abstract float functions, used to
instantiate universally quantified theorems at a specific input. -/
def FloatEnv.zeroes : FloatEnv :=
  { ln := fun _ => 0
    sqrt := fun _ => 0
    cpowf := fun _ _ => (0, 0) }

/-- Game-of-Life rule families (`LifeRule` in `game_of_life.rs`). -/
inductive LifeRule where
  | Conway | HighLife | Seeds | LifeWithoutDeath | DayAndNight | Maze
deriving DecidableEq, Repr

/-- `LifeRule::should_live`: whether a cell is alive next generation, from its
current state and its live-neighbor count (a `u8`, modelled as `ℕ`); the Rust
range patterns such as `2..=3` become decidable interval tests. -/
def LifeRule.should_live (rule : LifeRule) (alive : Bool) (neighbors : ℕ) : Bool :=
  match rule with
  | .Conway =>
      if alive then 2 ≤ neighbors && neighbors ≤ 3
      else neighbors == 3
  | .HighLife =>
      if alive then 2 ≤ neighbors && neighbors ≤ 3
      else neighbors == 3 || neighbors == 6
  | .Seeds => !alive && neighbors == 2
  | .LifeWithoutDeath => alive || neighbors == 3
  | .DayAndNight =>
      if alive then (3 ≤ neighbors && neighbors ≤ 4) || (6 ≤ neighbors && neighbors ≤ 8)
      else neighbors == 3 || (6 ≤ neighbors && neighbors ≤ 8)
  | .Maze =>
      if alive then 1 ≤ neighbors && neighbors ≤ 5
      else neighbors == 3

/-- The `GameOfLife` kernel state (`game_of_life.rs`).  The egui-only fields
`speed` and `time_accumulator` drive how often the host calls `step` and are
carried along unchanged. -/
structure GameOfLife where
  grid_width : ℕ
  grid_height : ℕ
  cells : List Bool
  cell_age : List ℕ
  speed : ℚ
  time_accumulator : ℚ
  rule : LifeRule
  show_age : Bool
  paused : Bool
  generation : ℕ
deriving DecidableEq, Repr

namespace GameOfLife

/-- The `(dx, dy)` offsets visited by the `count_neighbors` loops, in source
order (`dy` outer from `-1` to `1`, `dx` inner, skipping `(0, 0)`). -/
def neighborOffsets : List (ℤ × ℤ) :=
  [(-1, -1), (0, -1), (1, -1), (-1, 0), (1, 0), (-1, 1), (0, 1), (1, 1)]

/-- `GameOfLife::count_neighbors`: toroidally wrapped 8-neighbor count.  The
Rust `%` on `i32` is the truncated remainder, hence `Int.tmod`. -/
def count_neighbors (g : GameOfLife) (x y : ℕ) : ℕ :=
  (neighborOffsets.map (fun d =>
    let nx := Int.tmod ((x : ℤ) + d.1 + (g.grid_width : ℤ)) (g.grid_width : ℤ)
    let ny := Int.tmod ((y : ℤ) + d.2 + (g.grid_height : ℤ)) (g.grid_height : ℤ)
    let idx := ny.toNat * g.grid_width + nx.toNat
    if g.cells.getD idx false then 1 else 0)).sum

/-- The neighbor-count formula as the claim phrases it: the eight offsets
`(dx, dy) ∈ {-1,0,1}² \ {(0,0)}` with coordinates wrapped as
`(x + dx + width) mod width` and `(y + dy + height) mod height`.  To keep the
arithmetic in `ℕ`, each offset is stored shifted by one (so the entries `e`
below are `(dx + 1, dy + 1) ∈ {0,1,2}²` and the wrapped coordinate reads
`(x + e.1 + width - 1) % width`). -/
def count_neighbors_wrap (g : GameOfLife) (x y : ℕ) : ℕ :=
  (([(0, 0), (1, 0), (2, 0), (0, 1), (2, 1), (0, 2), (1, 2), (2, 2)] :
      List (ℕ × ℕ)).map (fun e =>
    let nx := (x + e.1 + g.grid_width - 1) % g.grid_width
    let ny := (y + e.2 + g.grid_height - 1) % g.grid_height
    if g.cells.getD (ny * g.grid_width + nx) false then 1 else 0)).sum

/-- `GameOfLife::step`: double-buffered application of the rule to every cell,
with the age grid updated alongside. -/
def step (g : GameOfLife) : GameOfLife :=
  let cellAt := fun (x y : ℕ) => g.cells.getD (y * g.grid_width + x) false
  let newCells :=
    (List.range g.grid_height).flatMap (fun y =>
      (List.range g.grid_width).map (fun x =>
        g.rule.should_live (cellAt x y) (g.count_neighbors x y)))
  let newAge :=
    (List.range g.grid_height).flatMap (fun y =>
      (List.range g.grid_width).map (fun x =>
        if g.rule.should_live (cellAt x y) (g.count_neighbors x y) then
          if cellAt x y then g.cell_age.getD (y * g.grid_width + x) 0 + 1 else 1
        else 0))
  { g with cells := newCells, cell_age := newAge, generation := g.generation + 1 }

/-- `GameOfLife::compute` (its `Simulation2D` impl): rasterize the grid to a
`width*height` row-major pixel buffer. -/
def compute (g : GameOfLife) (width height : ℕ) : List Color :=
  let cell_width := width / g.grid_width
  let cell_height := height / g.grid_height
  (List.range height).flatMap (fun py =>
    (List.range width).map (fun px =>
      let gx := px / max cell_width 1
      let gy := py / max cell_height 1
      if gx < g.grid_width ∧ gy < g.grid_height then
        let idx := gy * g.grid_width + gx
        if g.cells.getD idx false then
          if g.show_age then
            let age : ℚ := (min (g.cell_age.getD idx 0) 50 : ℕ) / 50
            Color.from_hsv (age * 240) (8/10) (9/10)
          else ⟨0, 255, 100⟩
        else Color.BLACK
      else Color.BLACK))

end GameOfLife

/-- Complex numbers over the rational scalar model (`num_complex::Complex64`):
a pair of real and imaginary parts.  Addition is componentwise (the `Prod`
instance). -/
abbrev Cx : Type := ℚ × ℚ

/-- Complex multiplication. -/
def cmul (z w : Cx) : Cx :=
  (z.1 * w.1 - z.2 * w.2, z.1 * w.2 + z.2 * w.1)

/-- `Complex64::norm_sqr`. -/
def cnormSqr (z : Cx) : ℚ :=
  z.1 * z.1 + z.2 * z.2

/-- The `Mandelbrot` kernel state (`mandelbrot.rs`). -/
structure Mandelbrot where
  max_iterations : ℕ
  center_x : ℚ
  center_y : ℚ
  zoom : ℚ
  power : ℚ
  escape_radius : ℚ
  color_scheme : ColorScheme
  smooth_coloring : Bool
  invert_colors : Bool
  color_offset : ℚ
  color_cycling : Bool
  cycle_time : ℚ
deriving DecidableEq, Repr

namespace Mandelbrot

/-- `Mandelbrot::default` / `Mandelbrot::new`. -/
def new : Mandelbrot :=
  { max_iterations := 100
    center_x := -1/2
    center_y := 0
    zoom := 1
    power := 2
    escape_radius := 2
    color_scheme := .Classic
    smooth_coloring := true
    invert_colors := false
    color_offset := 0
    color_cycling := false
    cycle_time := 0 }

/-- The body of the `for i in 0..max_iterations` loop of
`Mandelbrot::mandelbrot_iterations`: `fuel` counts the remaining iterations
and `i` is the current loop index, so the function is entered with
`fuel = max_iterations` and `i = 0`. -/
def iterLoop (env : FloatEnv) (m : Mandelbrot) (c : Cx) :
    ℕ → ℕ → Cx → ℕ × ℚ
  | 0, _, _ => (m.max_iterations, (m.max_iterations : ℚ))
  | fuel + 1, i, z =>
      let z_norm_sqr := cnormSqr z
      if z_norm_sqr > m.escape_radius * m.escape_radius then
        if m.smooth_coloring then
          let log_zn := env.ln z_norm_sqr / 2
          let nu := env.ln (log_zn / env.ln m.escape_radius) / env.ln 2
          (i, (i : ℚ) + 1 - nu)
        else (i, (i : ℚ))
      else
        let z' :=
          if |m.power - 2| < 1/1000 then cmul z z + c
          else env.cpowf z m.power + c
        iterLoop env m c fuel (i + 1) z'

/-- `Mandelbrot::mandelbrot_iterations`: iterate from `z = 0`, returning the
escape iteration and the smooth iteration count (or `max_iterations` twice
when the orbit never escapes). -/
def mandelbrot_iterations (env : FloatEnv) (m : Mandelbrot) (c : Cx) : ℕ × ℚ :=
  iterLoop env m c m.max_iterations 0 (0, 0)

/-- `Mandelbrot::pixel_to_complex`: map a pixel to its complex coordinate. -/
def pixel_to_complex (m : Mandelbrot) (x y width height : ℕ) : Cx :=
  let aspect : ℚ := (width : ℚ) / (height : ℚ)
  let range : ℚ := 4 / m.zoom
  ( m.center_x + ((x : ℚ) / (width : ℚ) - 1/2) * range * aspect
  , m.center_y + ((y : ℚ) / (height : ℚ) - 1/2) * range )

/-- `Mandelbrot::iterations_to_color`: pixels that reached `max_iterations`
are painted the fixed non-escaping color black; escaped pixels go through the
palette. -/
def iterations_to_color (m : Mandelbrot) (iterations : ℕ) (smooth_iter : ℚ) :
    Color :=
  if iterations = m.max_iterations then Color.BLACK
  else
    let t := smooth_iter / (m.max_iterations : ℚ)
    let t :=
      if m.color_cycling then qfmod (t + m.cycle_time) 1
      else qfmod (t + m.color_offset) 1
    let color := m.color_scheme.map t m.smooth_coloring
    if m.invert_colors then Color.from_rgb (255 - color.r) (255 - color.g) (255 - color.b)
    else color

/-- `Mandelbrot::compute` (its `Simulation2D` impl).  The Rust code uses a
parallel row iterator whose results are assembled in row order, so its
denotation is the sequential row-major enumeration. -/
def compute (env : FloatEnv) (m : Mandelbrot) (width height : ℕ) : List Color :=
  (List.range height).flatMap (fun y =>
    (List.range width).map (fun x =>
      let c := m.pixel_to_complex x y width height
      let r := m.mandelbrot_iterations env c
      m.iterations_to_color r.1 r.2))

end Mandelbrot

/-- A 3D point `[f32; 3]`, modelled as a triple of rationals.  Addition,
negation and subtraction are componentwise via the `Prod` instances. -/
abbrev Vec3 : Type := ℚ × ℚ × ℚ

/-- The `LorenzAttractor` kernel state (`lorenz.rs`). -/
structure LorenzAttractor where
  sigma : ℚ
  rho : ℚ
  beta : ℚ
  points : List Vec3
  current : Vec3
  max_points : ℕ
  speed : ℚ
deriving DecidableEq, Repr

namespace LorenzAttractor

/-- `LorenzAttractor::default` / `LorenzAttractor::new`. -/
def new : LorenzAttractor :=
  { sigma := 10
    rho := 28
    beta := 8/3
    points := []
    current := (1/10, 0, 0)
    max_points := 5000
    speed := 1 }

/-- `LorenzAttractor::compute_derivatives`. -/
def compute_derivatives (s : LorenzAttractor) (pos : Vec3) : Vec3 :=
  ( s.sigma * (pos.2.1 - pos.1)
  , pos.1 * (s.rho - pos.2.2) - pos.2.1
  , pos.1 * pos.2.1 - s.beta * pos.2.2 )

/-- The new position produced by one `step(dt)` call: classical RK4, with the
internal `dt` scaled by the speed factor and `0.01` exactly as in the
source. -/
def nextCurrent (s : LorenzAttractor) (dt0 : ℚ) : Vec3 :=
  let dt := dt0 * s.speed * (1/100)
  let k1 := s.compute_derivatives s.current
  let t1 : Vec3 :=
    ( s.current.1 + k1.1 * dt * (1/2)
    , s.current.2.1 + k1.2.1 * dt * (1/2)
    , s.current.2.2 + k1.2.2 * dt * (1/2) )
  let k2 := s.compute_derivatives t1
  let t2 : Vec3 :=
    ( s.current.1 + k2.1 * dt * (1/2)
    , s.current.2.1 + k2.2.1 * dt * (1/2)
    , s.current.2.2 + k2.2.2 * dt * (1/2) )
  let k3 := s.compute_derivatives t2
  let t3 : Vec3 :=
    ( s.current.1 + k3.1 * dt
    , s.current.2.1 + k3.2.1 * dt
    , s.current.2.2 + k3.2.2 * dt )
  let k4 := s.compute_derivatives t3
  ( s.current.1 + (k1.1 + 2 * k2.1 + 2 * k3.1 + k4.1) * dt / 6
  , s.current.2.1 + (k1.2.1 + 2 * k2.2.1 + 2 * k3.2.1 + k4.2.1) * dt / 6
  , s.current.2.2 + (k1.2.2 + 2 * k2.2.2 + 2 * k3.2.2 + k4.2.2) * dt / 6 )

/-- `LorenzAttractor::step` (its `Simulation3D` impl): advance the RK4 state,
push the new point, and drop the oldest point once the trail exceeds
`max_points` (`Vec::remove(0)`). -/
def step (s : LorenzAttractor) (dt0 : ℚ) : LorenzAttractor :=
  let c := s.nextCurrent dt0
  let pts := s.points ++ [c]
  { s with
    current := c
    points := if s.max_points < pts.length then pts.tail else pts }

/-- `LorenzAttractor::get_points`: a snapshot copy of the trail. -/
def get_points (s : LorenzAttractor) : List Vec3 :=
  s.points

/-- `LorenzAttractor::reset`: clear the trail and restore the seed position;
the public parameters are left untouched. -/
def reset (s : LorenzAttractor) : LorenzAttractor :=
  { s with points := [], current := (1/10, 0, 0) }

/-- A sequence of `step` calls with the given `dt` values. -/
def stepMany (s : LorenzAttractor) (dts : List ℚ) : LorenzAttractor :=
  dts.foldl step s

end LorenzAttractor

/-- A single body of the `NBodyGravity` kernel (`nbody_gravity.rs`). -/
structure Body where
  position : Vec3
  velocity : Vec3
  mass : ℚ
  trail : List Vec3
deriving DecidableEq, Repr

/-- Fallback body for the bounds-guarded indexed reads of the Rust code. -/
def Body.dummy : Body :=
  { position := (0, 0, 0), velocity := (0, 0, 0), mass := 0, trail := [] }

/-- The `NBodyGravity` kernel state (`nbody_gravity.rs`).  The bodies are
spawned by an RNG-driven `init_bodies`, so the embedding quantifies over an
arbitrary body list instead of fixing a construction. -/
structure NBodyGravity where
  body_count : ℕ
  gravitational_constant : ℚ
  softening : ℚ
  speed : ℚ
  trail_length : ℕ
  show_trails : Bool
  central_mass : ℚ
  spawn_radius : ℚ
  initial_velocity : ℚ
  bodies : List Body
deriving DecidableEq, Repr

namespace NBodyGravity

/-- In-place force accumulation `forces[i] += v` on the force buffer. -/
def addAt (forces : List Vec3) (i : ℕ) (v : Vec3) : List Vec3 :=
  forces.set i (forces.getD i 0 + v)

/-- The force contribution one `(i, j)` pair adds to body `i` inside
`NBodyGravity::compute_forces` (body `j` receives its negation):
`force_mag = G * m_i * m_j / (r² + ε²)` scaled onto the separation vector
divided by `dist = sqrt(r² + ε²)`. -/
def pairForce (env : FloatEnv) (g softening : ℚ) (bi bj : Body) : Vec3 :=
  let dx := bj.position.1 - bi.position.1
  let dy := bj.position.2.1 - bi.position.2.1
  let dz := bj.position.2.2 - bi.position.2.2
  let dist_sq := dx * dx + dy * dy + dz * dz + softening * softening
  let dist := env.sqrt dist_sq
  let force_mag := g * bi.mass * bj.mass / dist_sq
  (force_mag * dx / dist, force_mag * dy / dist, force_mag * dz / dist)

/-- `NBodyGravity::compute_forces`: the `i < j` double loop, accumulating each
pair's contribution positively onto `i` and negatively onto `j`. -/
def compute_forces (env : FloatEnv) (n : NBodyGravity) : List Vec3 :=
  (List.range n.bodies.length).foldl
    (fun forces i =>
      (List.range' (i + 1) (n.bodies.length - (i + 1))).foldl
        (fun fs j =>
          let f := pairForce env n.gravitational_constant n.softening
            (n.bodies.getD i Body.dummy) (n.bodies.getD j Body.dummy)
          addAt (addAt fs i f) j (-f))
        forces)
    (List.replicate n.bodies.length 0)

/-- The per-body update of `NBodyGravity::step` for body index `i` (index `0`,
the central body, is kept stationary). -/
def stepBody (n : NBodyGravity) (forces : List Vec3) (dt : ℚ) (i : ℕ) (b : Body) :
    Body :=
  if i = 0 then b
  else
    let f := forces.getD i 0
    let ax := f.1 / b.mass
    let ay := f.2.1 / b.mass
    let az := f.2.2 / b.mass
    let v : Vec3 := (b.velocity.1 + ax * dt, b.velocity.2.1 + ay * dt, b.velocity.2.2 + az * dt)
    let p : Vec3 := (b.position.1 + v.1 * dt, b.position.2.1 + v.2.1 * dt, b.position.2.2 + v.2.2 * dt)
    let trail :=
      if n.show_trails then
        let t := b.trail ++ [p]
        if n.trail_length < t.length then t.tail else t
      else b.trail
    { b with velocity := v, position := p, trail := trail }

/-- Indexed map over the body list (`iter_mut().enumerate()`), with `i` the
index of the first element. -/
def mapBodies (f : ℕ → Body → Body) : ℕ → List Body → List Body
  | _, [] => []
  | i, b :: bs => f i b :: mapBodies f (i + 1) bs

/-- `NBodyGravity::step` (its `Simulation3D` impl). -/
def step (env : FloatEnv) (n : NBodyGravity) (dt0 : ℚ) : NBodyGravity :=
  let dt := dt0 * n.speed * (1/10)
  let forces := n.compute_forces env
  { n with bodies := mapBodies (stepBody n forces dt) 0 n.bodies }

/-- A sequence of `step` calls with the given `dt` values. -/
def stepMany (env : FloatEnv) (n : NBodyGravity) (dts : List ℚ) : NBodyGravity :=
  dts.foldl (step env) n

end NBodyGravity

/-- Grain-drop placement modes (`DropMode` in `sandpile.rs`). -/
inductive DropMode where
  | Center | Random | Pattern
deriving DecidableEq, Repr

/-- The `Sandpile` kernel state (`sandpile.rs`).  Grid cells are `u8` grain
counters, modelled as `ℕ`. -/
structure Sandpile where
  grid_width : ℕ
  grid_height : ℕ
  drop_rate : ℚ
  critical_mass : ℕ
  color_scheme : ColorScheme
  show_avalanches : Bool
  drop_mode : DropMode
  grid : List ℕ
  avalanche_sites : List Bool
  time_accumulator : ℚ
  total_drops : ℕ
  total_avalanches : ℕ
deriving DecidableEq, Repr

namespace Sandpile

/-- The grid update of one topple at flat index `idx` inside
`Sandpile::avalanche`: subtract `critical_mass` from the cell and give one
grain to each of its four orthogonal neighbors, in source order. -/
def toppleAt (w : ℕ) (grid : List ℕ) (idx cm : ℕ) : List ℕ :=
  let g0 := grid.set idx (grid.getD idx 0 - cm)
  let g1 := g0.set (idx - 1) (g0.getD (idx - 1) 0 + 1)
  let g2 := g1.set (idx + 1) (g1.getD (idx + 1) 0 + 1)
  let g3 := g2.set (idx - w) (g2.getD (idx - w) 0 + 1)
  g3.set (idx + w) (g3.getD (idx + w) 0 + 1)

/-- The flat indices of the interior cells visited by one sweep of the
avalanche loop (`y` in `1..height-1` outer, `x` in `1..width-1` inner). -/
def interiorCells (w h : ℕ) : List ℕ :=
  (List.range' 1 (h - 2)).flatMap (fun y =>
    (List.range' 1 (w - 2)).map (fun x => y * w + x))

/-- One cell visit of the avalanche sweep: topple the cell if it holds at
least `critical_mass` grains, recording the site and the fact that something
toppled. -/
def sweepStep (st : Sandpile × Bool) (idx : ℕ) : Sandpile × Bool :=
  let s := st.1
  if s.critical_mass ≤ s.grid.getD idx 0 then
    ( { s with
        grid := toppleAt s.grid_width s.grid idx s.critical_mass
        avalanche_sites := s.avalanche_sites.set idx true }
    , true )
  else st

/-- One full pass of the inner `for` loops of `Sandpile::avalanche` over the
interior cells, returning whether any cell toppled. -/
def sweep (s : Sandpile) : Sandpile × Bool :=
  (interiorCells s.grid_width s.grid_height).foldl sweepStep (s, false)

/-- The `while any_toppled` loop of `Sandpile::avalanche`.  The Rust loop has
no iteration bound and runs to quiescence; the embedding makes the loop a
total function with a fuel argument and returns `none` only when the fuel is
exhausted before quiescence.  The boolean accumulates `avalanche_occurred`. -/
def avalancheLoop : ℕ → Sandpile → Bool → Option (Sandpile × Bool)
  | 0, _, _ => none
  | fuel + 1, s, occurred =>
      let r := sweep s
      if r.2 then avalancheLoop fuel r.1 true else some (r.1, occurred)

/-- `Sandpile::avalanche`: clear the avalanche markers, run the topple loop to
quiescence, and count the avalanche if anything toppled. -/
def avalanche (fuel : ℕ) (s : Sandpile) : Option Sandpile :=
  let s0 := { s with avalanche_sites := List.replicate s.avalanche_sites.length false }
  match avalancheLoop fuel s0 false with
  | none => none
  | some (s', occurred) =>
      some (if occurred then { s' with total_avalanches := s'.total_avalanches + 1 } else s')

/-- The grain-addition core of `Sandpile::drop_sand` once the drop position
`(x, y)` has been chosen (`Center` mode uses the grid center; `Random` and
`Pattern` choose the position from the thread RNG and from `f32`
trigonometry, which the embedding abstracts as the `(x, y)` argument):
increment the cell, count the drop, and run the avalanche. -/
def dropSandAt (fuel : ℕ) (s : Sandpile) (x y : ℕ) : Option Sandpile :=
  let idx := y * s.grid_width + x
  let s1 :=
    { s with
      grid := s.grid.set idx (s.grid.getD idx 0 + 1)
      total_drops := s.total_drops + 1 }
  avalanche fuel s1

/-- `Sandpile::drop_sand` in `DropMode::Center`: the drop position is the grid
center. -/
def dropSandCenter (fuel : ℕ) (s : Sandpile) : Option Sandpile :=
  dropSandAt fuel s (s.grid_width / 2) (s.grid_height / 2)

/-- No interior cell of the grid holds `critical_mass` grains or more. -/
def interiorQuiescent (s : Sandpile) : Prop :=
  ∀ idx ∈ interiorCells s.grid_width s.grid_height,
    s.grid.getD idx 0 < s.critical_mass

instance (s : Sandpile) : Decidable (interiorQuiescent s) := by
  unfold interiorQuiescent; infer_instance

end Sandpile

/-- Concrete Game-of-Life state used to instantiate universally quantified
theorems at a specific input. -/
def golEx : GameOfLife :=
  { grid_width := 3, grid_height := 3
    cells := [false, false, false, true, false, false, false, false, false]
    cell_age := List.replicate 9 0
    speed := 10, time_accumulator := 0, rule := .Conway
    show_age := false, paused := false, generation := 0 }

/-- Concrete sandpile state: center cell and the border cell above it both
hold three grains, one grain short of the default critical mass of four. -/
def spEx : Sandpile :=
  { grid_width := 3, grid_height := 3, drop_rate := 10, critical_mass := 4
    color_scheme := .Fire, show_avalanches := true, drop_mode := .Center
    grid := [0, 3, 0, 0, 3, 0, 0, 0, 0]
    avalanche_sites := List.replicate 9 false
    time_accumulator := 0, total_drops := 0, total_avalanches := 0 }

/-- The state `Sandpile::drop_sand` produces from `spEx`: the center toppled
once, pushing the border cell at flat index 1 up to the critical mass. -/
def spEx' : Sandpile :=
  { spEx with
    grid := [0, 4, 0, 1, 0, 1, 0, 1, 0]
    avalanche_sites := [false, false, false, false, true, false, false, false, false]
    total_drops := 1
    total_avalanches := 1 }

/-- A freshly constructed Lorenz attractor whose `sigma` parameter has been
changed through the public parameter boundary (the UI slider writes the
field directly). -/
def lorenzCex : LorenzAttractor :=
  { LorenzAttractor.new with sigma := 11 }

/-- Concrete two-body configuration used to instantiate universally
quantified theorems at a specific input. -/
def nbodyEx : NBodyGravity :=
  { body_count := 1, gravitational_constant := 1, softening := 1/2
    speed := 1, trail_length := 2, show_trails := true, central_mass := 100
    spawn_radius := 30, initial_velocity := 2
    bodies :=
      [ { position := (0, 0, 0), velocity := (0, 0, 0), mass := 100, trail := [] }
      , { position := (10, 0, 0), velocity := (0, 2, 0), mass := 1, trail := [] } ] }

end SimCore

namespace SimCore

/-! ### Shared list lemmas -/

theorem getD_set_self {α : Type} (l : List α) (i : ℕ) (v d : α) (h : i < l.length) :
    (l.set i v).getD i d = v := by
  simp [List.getD, List.getElem?_set_self, h]

theorem getD_set_ne {α : Type} (l : List α) (i j : ℕ) (v d : α) (h : i ≠ j) :
    (l.set i v).getD j d = l.getD j d := by
  simp [List.getD, List.getElem?_set_ne h]

theorem length_flatMap_const {α β : Type} (l : List α) (f : α → List β) (w : ℕ)
    (h : ∀ a ∈ l, (f a).length = w) : (l.flatMap f).length = l.length * w := by
  induction l with
  | nil => simp
  | cons a l ih =>
      simp only [List.flatMap_cons, List.length_append, List.length_cons]
      rw [h a (List.mem_cons_self a l), ih (fun b hb => h b (List.mem_cons_of_mem a hb))]
      ring

/-! ### C1: raster kernels return `width*height` row-major pixels -/

/-- C1: for the raster kernels (Mandelbrot and GameOfLife), `compute(width,
height)` returns a pixel buffer of exactly `width*height` colors (the
enumeration in the definitions is row-major), and in particular a zero width
or height yields the empty buffer; the embedded functions are total, so no
input aborts. -/
theorem compute_buffer_length :
    (∀ (env : FloatEnv) (m : Mandelbrot) (width height : ℕ),
       (Mandelbrot.compute env m width height).length = width * height) ∧
    (∀ (g : GameOfLife) (width height : ℕ),
       (GameOfLife.compute g width height).length = width * height) ∧
    (∀ (env : FloatEnv) (m : Mandelbrot) (height : ℕ),
       Mandelbrot.compute env m 0 height = []) ∧
    (∀ (env : FloatEnv) (m : Mandelbrot) (width : ℕ),
       Mandelbrot.compute env m width 0 = []) ∧
    (∀ (g : GameOfLife) (height : ℕ), GameOfLife.compute g 0 height = []) ∧
    (∀ (g : GameOfLife) (width : ℕ), GameOfLife.compute g width 0 = []) := by
  have hm : ∀ (env : FloatEnv) (m : Mandelbrot) (width height : ℕ),
      (Mandelbrot.compute env m width height).length = width * height := by
    intro env m width height
    unfold Mandelbrot.compute
    rw [length_flatMap_const _ _ width (by intro a _; simp)]
    simp [Nat.mul_comm]
  have hg : ∀ (g : GameOfLife) (width height : ℕ),
      (GameOfLife.compute g width height).length = width * height := by
    intro g width height
    unfold GameOfLife.compute
    rw [length_flatMap_const _ _ width (by intro a _; simp)]
    simp [Nat.mul_comm]
  refine ⟨hm, hg, ?_, ?_, ?_, ?_⟩
  · intro env m height
    exact List.length_eq_zero.mp (by rw [hm]; ring)
  · intro env m width
    exact List.length_eq_zero.mp (by rw [hm]; ring)
  · intro g height
    exact List.length_eq_zero.mp (by rw [hg]; ring)
  · intro g width
    exact List.length_eq_zero.mp (by rw [hg]; ring)

/-! ### C7: the Conway rule table -/

/-- C7: `LifeRule::should_live` for the Conway rule returns true exactly for a
dead cell with three live neighbors (birth) or a live cell with two or three
live neighbors (survival), for every neighbor count in `0..=8`. -/
theorem conway_should_live_correct (alive : Bool) (neighbors : ℕ)
    (h : neighbors ≤ 8) :
    LifeRule.Conway.should_live alive neighbors = true ↔
      ((alive = true ∧ (neighbors = 2 ∨ neighbors = 3)) ∨
       (alive = false ∧ neighbors = 3)) := by
  cases alive
  · simp [LifeRule.should_live]
  · simp [LifeRule.should_live]
    omega

/-- Witness for C7 at a concrete input: a dead cell with three live neighbors
is born. -/
theorem conway_should_live_correct_witness :
    LifeRule.Conway.should_live false 3 = true :=
  (conway_should_live_correct false 3 (by decide)).mpr (Or.inr ⟨rfl, rfl⟩)

/-! ### C8: toroidal neighbor counting -/

theorem tmod_natCast (b m : ℕ) : (Int.tmod (b : ℤ) (m : ℤ)).toNat = b % m := by
  rcases Nat.eq_zero_or_pos m with hm | hm
  · subst hm
    simp
  · rw [Int.tmod_eq_emod (Int.natCast_nonneg b) (Int.natCast_nonneg m),
      ← Int.natCast_mod]
    exact Int.toNat_natCast _

theorem tmod_shift (a m : ℕ) (d : ℤ) (hm : 1 ≤ m) (hd : -1 ≤ d) :
    (Int.tmod ((a : ℤ) + d + (m : ℤ)) (m : ℤ)).toNat =
      (a + (d + 1).toNat + m - 1) % m := by
  have h : (a : ℤ) + d + (m : ℤ) = ((a + (d + 1).toNat + m - 1 : ℕ) : ℤ) := by
    omega
  rw [h, tmod_natCast]

/-- C8: Game-of-Life neighbor counting is toroidal: for any grid with
`width ≥ 1` and `height ≥ 1` the count agrees with the claim's formula — the
eight offsets of `{-1,0,1}²` minus the center, wrapped as
`(x + dx + width) mod width`, `(y + dy + height) mod height` — and in
particular a live cell at `(0, y)` is counted as a neighbor of the cell at
`(width - 1, y)`. -/
theorem count_neighbors_toroidal (g : GameOfLife) (x y : ℕ)
    (hw : 1 ≤ g.grid_width) (hh : 1 ≤ g.grid_height) :
    g.count_neighbors x y = g.count_neighbors_wrap x y ∧
    (∀ row : ℕ, row < g.grid_height → 2 ≤ g.grid_width →
      g.cells.getD (row * g.grid_width + 0) false = true →
      1 ≤ g.count_neighbors (g.grid_width - 1) row) := by
  have main : ∀ a b : ℕ, g.count_neighbors a b = g.count_neighbors_wrap a b := by
    intro a b
    simp only [GameOfLife.count_neighbors, GameOfLife.count_neighbors_wrap,
      GameOfLife.neighborOffsets, List.map_cons, List.map_nil, List.sum_cons,
      List.sum_nil]
    rw [tmod_shift a g.grid_width (-1) hw (by norm_num),
      tmod_shift a g.grid_width 0 hw (by norm_num),
      tmod_shift a g.grid_width 1 hw (by norm_num),
      tmod_shift b g.grid_height (-1) hh (by norm_num),
      tmod_shift b g.grid_height 0 hh (by norm_num),
      tmod_shift b g.grid_height 1 hh (by norm_num)]
    norm_num [show ((2 : ℤ)).toNat = 2 from rfl]
  refine ⟨main x y, ?_⟩
  intro row hrow hw2 hlive
  rw [main (g.grid_width - 1) row]
  simp only [GameOfLife.count_neighbors_wrap, List.map_cons, List.map_nil,
    List.sum_cons, List.sum_nil]
  have hx : (g.grid_width - 1 + 2 + g.grid_width - 1) % g.grid_width = 0 := by
    rw [show g.grid_width - 1 + 2 + g.grid_width - 1 = 2 * g.grid_width by omega]
    exact Nat.mul_mod_left 2 g.grid_width
  have hy : (row + 1 + g.grid_height - 1) % g.grid_height = row := by
    rw [show row + 1 + g.grid_height - 1 = row + g.grid_height by omega,
      Nat.add_mod_right, Nat.mod_eq_of_lt hrow]
  have h5 :
      (if g.cells.getD
          ((row + 1 + g.grid_height - 1) % g.grid_height * g.grid_width +
            (g.grid_width - 1 + 2 + g.grid_width - 1) % g.grid_width) false
        then 1 else 0) = 1 := by
    rw [hx, hy, Nat.add_zero]
    rw [show row * g.grid_width + 0 = row * g.grid_width by omega] at hlive
    simp only [List.getD, List.get?_eq_getElem?] at hlive
    simp [hlive]
  omega

/-- Witness for C8 at a concrete grid: `golEx` is 3×3 with its only live cell
at `(0, 1)`, and that cell is counted as a neighbor of `(width - 1, 1)`. -/
theorem count_neighbors_toroidal_witness :
    golEx.count_neighbors 0 0 = golEx.count_neighbors_wrap 0 0 ∧
    1 ≤ golEx.count_neighbors (golEx.grid_width - 1) 1 := by
  have h := count_neighbors_toroidal golEx 0 0 (by decide) (by decide)
  exact ⟨h.1, h.2 1 (by decide) (by decide) (by decide)⟩

/-! ### C6: the origin never escapes and is painted black -/

theorem iterLoop_at_zero (env : FloatEnv) (m : Mandelbrot)
    (hpow : env.cpowf (0, 0) m.power = (0, 0)) :
    ∀ (fuel i : ℕ),
      Mandelbrot.iterLoop env m (0, 0) fuel i (0, 0) =
        (m.max_iterations, (m.max_iterations : ℚ)) := by
  intro fuel
  induction fuel with
  | zero => intro i; rfl
  | succ fuel ih =>
      intro i
      have hzn : cnormSqr ((0, 0) : Cx) = 0 := by norm_num [cnormSqr]
      have hesc : ¬ cnormSqr ((0, 0) : Cx) > m.escape_radius * m.escape_radius := by
        rw [hzn]
        exact not_lt.mpr (mul_self_nonneg _)
      have hz' :
          (if |m.power - 2| < 1/1000 then cmul (0, 0) (0, 0) + ((0, 0) : Cx)
           else env.cpowf (0, 0) m.power + (0, 0)) = ((0, 0) : Cx) := by
        split
        · norm_num [cmul, Prod.ext_iff]
        · rw [hpow]; norm_num [Prod.ext_iff]
      rw [Mandelbrot.iterLoop, if_neg hesc]
      simp only at hz' ⊢
      rw [hz', ih]

/-- C6: for the Mandelbrot kernel, the pixel at `c = 0 + 0i` reaches
`max_iterations` without escaping — for every `max_iterations ≥ 1` and every
`escape_radius ≥ 0` — and is painted the fixed non-escaping color black.  The
hypothesis on `env` pins the one modelled fact about `Complex64::powf` the
orbit needs: raising `0` to the kernel's exponent yields `0` (true of the
float library for every exponent the kernel's parameter range admits); the
default `power = 2` path needs no such assumption. -/
theorem mandelbrot_origin_never_escapes (env : FloatEnv) (m : Mandelbrot)
    (_hiter : 1 ≤ m.max_iterations) (_hrad : 0 ≤ m.escape_radius)
    (hpow : env.cpowf (0, 0) m.power = (0, 0)) :
    m.mandelbrot_iterations env (0, 0) =
        (m.max_iterations, (m.max_iterations : ℚ)) ∧
    m.iterations_to_color (m.mandelbrot_iterations env (0, 0)).1
        (m.mandelbrot_iterations env (0, 0)).2 = Color.BLACK := by
  have h := iterLoop_at_zero env m hpow m.max_iterations 0
  refine ⟨h, ?_⟩
  rw [Mandelbrot.mandelbrot_iterations] at *
  rw [h]
  simp [Mandelbrot.iterations_to_color]

/-- Witness for C6: the default kernel configuration, with the float
environment instantiated concretely. -/
theorem mandelbrot_origin_never_escapes_witness :
    Mandelbrot.new.mandelbrot_iterations FloatEnv.zeroes (0, 0) = (100, 100) ∧
    Mandelbrot.new.iterations_to_color
        (Mandelbrot.new.mandelbrot_iterations FloatEnv.zeroes (0, 0)).1
        (Mandelbrot.new.mandelbrot_iterations FloatEnv.zeroes (0, 0)).2 = Color.BLACK := by
  have h := mandelbrot_origin_never_escapes FloatEnv.zeroes Mandelbrot.new
    (by norm_num [Mandelbrot.new]) (by norm_num [Mandelbrot.new]) rfl
  simpa [Mandelbrot.new] using h

/-! ### C2: bounded FIFO trails -/

theorem lorenz_step_max_points (s : LorenzAttractor) (dt : ℚ) :
    (s.step dt).max_points = s.max_points := rfl

theorem lorenz_step_trail_bound (s : LorenzAttractor) (dt : ℚ)
    (h : s.points.length ≤ s.max_points) :
    (s.step dt).points.length ≤ s.max_points := by
  unfold LorenzAttractor.step
  dsimp only
  split
  · simpa using h
  · next hle =>
      simp only [List.length_append, List.length_cons, List.length_nil] at hle ⊢
      omega

theorem lorenz_stepMany_max_points (s : LorenzAttractor) (dts : List ℚ) :
    (s.stepMany dts).max_points = s.max_points := by
  induction dts generalizing s with
  | nil => rfl
  | cons dt dts ih => exact (ih (s.step dt)).trans (lorenz_step_max_points s dt)

theorem lorenz_stepMany_trail_bound (s : LorenzAttractor) (dts : List ℚ)
    (h : s.points.length ≤ s.max_points) :
    (s.stepMany dts).points.length ≤ (s.stepMany dts).max_points := by
  induction dts generalizing s with
  | nil => exact h
  | cons dt dts ih =>
      exact ih (s.step dt) (by
        rw [lorenz_step_max_points]
        exact lorenz_step_trail_bound s dt h)

theorem nbody_step_body_trail_bound (n : NBodyGravity) (forces : List Vec3)
    (dt : ℚ) (i : ℕ) (b : Body) (h : b.trail.length ≤ n.trail_length) :
    (NBodyGravity.stepBody n forces dt i b).trail.length ≤ n.trail_length := by
  unfold NBodyGravity.stepBody
  split
  · exact h
  · simp only
    split
    · split
      · next hlt =>
          simp only [List.length_tail, List.length_append, List.length_cons,
            List.length_nil] at hlt ⊢
          omega
      · next hle =>
          simp only [List.length_append, List.length_cons, List.length_nil] at hle ⊢
          omega
    · exact h

theorem mapBodies_mem {f : ℕ → Body → Body} :
    ∀ (l : List Body) (i : ℕ) (b : Body), b ∈ NBodyGravity.mapBodies f i l →
      ∃ j b0, b0 ∈ l ∧ b = f j b0 := by
  intro l
  induction l with
  | nil => intro i b hb; cases hb
  | cons hd tl ih =>
      intro i b hb
      rcases List.mem_cons.mp hb with hb | hb
      · exact ⟨i, hd, List.mem_cons_self hd tl, hb⟩
      · rcases ih (i + 1) b hb with ⟨j, b0, hb0, rfl⟩
        exact ⟨j, b0, List.mem_cons_of_mem hd hb0, rfl⟩

theorem nbody_step_trail_bound (env : FloatEnv) (n : NBodyGravity) (dt : ℚ)
    (h : ∀ b ∈ n.bodies, b.trail.length ≤ n.trail_length) :
    ∀ b ∈ (NBodyGravity.step env n dt).bodies,
      b.trail.length ≤ n.trail_length := by
  intro b hb
  rcases mapBodies_mem n.bodies 0 b hb with ⟨j, b0, hb0, rfl⟩
  exact nbody_step_body_trail_bound n _ _ j b0 (h b0 hb0)

theorem nbody_step_trail_length (env : FloatEnv) (n : NBodyGravity) (dt : ℚ) :
    (NBodyGravity.step env n dt).trail_length = n.trail_length := rfl

/-- C2: the trail buffers are bounded FIFOs.  For the Lorenz attractor,
starting from construction every sequence of `step(dt)` calls keeps
`points.len() ≤ max_points` (the cap is never changed by `step`), and each
step appends the newest point and, once the cap is exceeded, evicts exactly
the oldest point from the front.  For the N-body kernel, any state whose
bodies respect the cap keeps respecting it after any sequence of `step(dt)`
calls. -/
theorem trail_bound_invariant :
    (∀ dts : List ℚ,
       (LorenzAttractor.stepMany LorenzAttractor.new dts).points.length ≤
         LorenzAttractor.new.max_points) ∧
    (∀ (s : LorenzAttractor) (dt : ℚ),
       (s.step dt).points =
         (if s.max_points < (s.points ++ [s.nextCurrent dt]).length
          then (s.points ++ [s.nextCurrent dt]).tail
          else s.points ++ [s.nextCurrent dt])) ∧
    (∀ (env : FloatEnv) (n : NBodyGravity),
       (∀ b ∈ n.bodies, b.trail.length ≤ n.trail_length) →
       ∀ dts : List ℚ, ∀ b ∈ (NBodyGravity.stepMany env n dts).bodies,
         b.trail.length ≤ n.trail_length) := by
  refine ⟨?_, ?_, ?_⟩
  · intro dts
    have h1 := lorenz_stepMany_trail_bound LorenzAttractor.new dts
      (by simp [LorenzAttractor.new])
    rwa [lorenz_stepMany_max_points] at h1
  · intro s dt
    rfl
  · intro env n h dts
    induction dts generalizing n with
    | nil => exact h
    | cons dt dts ih =>
        have h' := nbody_step_trail_bound env n dt h
        have := ih (NBodyGravity.step env n dt) h'
        exact this

theorem mapBodies_length (f : ℕ → Body → Body) :
    ∀ (l : List Body) (i : ℕ), (NBodyGravity.mapBodies f i l).length = l.length := by
  intro l
  induction l with
  | nil => intro i; rfl
  | cons hd tl ih =>
      intro i
      simp [NBodyGravity.mapBodies, ih (i + 1)]

theorem nbody_stepMany_bodies_length (env : FloatEnv) (n : NBodyGravity)
    (dts : List ℚ) :
    (NBodyGravity.stepMany env n dts).bodies.length = n.bodies.length := by
  induction dts generalizing n with
  | nil => rfl
  | cons dt dts ih =>
      exact (ih (NBodyGravity.step env n dt)).trans (mapBodies_length _ _ _)

/-- Witness for C2 at a concrete input: the two-body configuration `nbodyEx`
starts with empty trails, and after one step the second body's trail is still
within the cap. -/
theorem trail_bound_invariant_witness :
    ((NBodyGravity.stepMany FloatEnv.zeroes nbodyEx [1]).bodies.getD 1
        Body.dummy).trail.length ≤ nbodyEx.trail_length := by
  have h1 : 1 < (NBodyGravity.stepMany FloatEnv.zeroes nbodyEx [1]).bodies.length := by
    rw [nbody_stepMany_bodies_length]
    norm_num [nbodyEx]
  have hmem : (NBodyGravity.stepMany FloatEnv.zeroes nbodyEx [1]).bodies.getD 1
      Body.dummy ∈ (NBodyGravity.stepMany FloatEnv.zeroes nbodyEx [1]).bodies := by
    rw [List.getD_eq_getElem _ _ h1]
    exact List.getElem_mem h1
  exact trail_bound_invariant.2.2 FloatEnv.zeroes nbodyEx (by decide) [1] _ hmem

/-! ### C4: what `reset` actually restores -/

/-- C4 counterexample: after a public-parameter change (`sigma` set to 11
through the UI boundary), `reset()` does not return the state to the one
produced by `new()`: the parameters stay at their current values. -/
theorem lorenz_reset_counterexample :
    lorenzCex.reset ≠ LorenzAttractor.new := by
  decide

theorem lorenz_step_params (s : LorenzAttractor) (dt : ℚ) :
    (s.step dt).sigma = s.sigma ∧ (s.step dt).rho = s.rho ∧
    (s.step dt).beta = s.beta ∧ (s.step dt).speed = s.speed ∧
    (s.step dt).max_points = s.max_points :=
  ⟨rfl, rfl, rfl, rfl, rfl⟩

theorem lorenz_eq_of_fields (a b : LorenzAttractor) (h1 : a.sigma = b.sigma)
    (h2 : a.rho = b.rho) (h3 : a.beta = b.beta) (h4 : a.points = b.points)
    (h5 : a.current = b.current) (h6 : a.max_points = b.max_points)
    (h7 : a.speed = b.speed) : a = b := by
  cases a
  cases b
  simp_all

theorem lorenz_stepMany_params (s : LorenzAttractor) (dts : List ℚ) :
    (s.stepMany dts).sigma = s.sigma ∧ (s.stepMany dts).rho = s.rho ∧
    (s.stepMany dts).beta = s.beta ∧ (s.stepMany dts).speed = s.speed := by
  induction dts generalizing s with
  | nil => exact ⟨rfl, rfl, rfl, rfl⟩
  | cons dt dts ih => exact ih (s.step dt)

/-- C4 amended: `reset()` clears the trail and restores the current position
to the construction-time seed `[0.1, 0, 0]`, leaving the public parameters
(`sigma`, `rho`, `beta`, `speed`, `max_points`) at their current values; in
particular, after any sequence of `step(dt)` calls with no parameter changes,
`reset()` does return the state exactly to the one `new()` produces. -/
theorem lorenz_reset_restores_seed :
    (∀ s : LorenzAttractor,
       s.reset.points = [] ∧ s.reset.current = LorenzAttractor.new.current ∧
       s.reset.sigma = s.sigma ∧ s.reset.rho = s.rho ∧ s.reset.beta = s.beta ∧
       s.reset.speed = s.speed ∧ s.reset.max_points = s.max_points) ∧
    (∀ dts : List ℚ,
       (LorenzAttractor.stepMany LorenzAttractor.new dts).reset =
         LorenzAttractor.new) := by
  constructor
  · intro s
    exact ⟨rfl, rfl, rfl, rfl, rfl, rfl, rfl⟩
  · intro dts
    have hp := lorenz_stepMany_params LorenzAttractor.new dts
    have hm := lorenz_stepMany_max_points LorenzAttractor.new dts
    exact lorenz_eq_of_fields _ _ hp.1 hp.2.1 hp.2.2.1 rfl rfl hm hp.2.2.2

/-! ### C5: determinism of the Lorenz point sequence -/

/-- C5: two Lorenz attractor instances constructed identically and stepped
with the same sequence of `dt` values produce identical point sequences; the
embedded `step` is a pure function of the state, with no randomness, so the
match is exact. -/
theorem lorenz_deterministic (s1 s2 : LorenzAttractor) (dts : List ℚ)
    (h : s1 = s2) :
    (s1.stepMany dts).get_points = (s2.stepMany dts).get_points := by
  rw [h]

/-- Witness for C5: two identically constructed instances stepped with the
same two-element `dt` sequence. -/
theorem lorenz_deterministic_witness :
    (LorenzAttractor.stepMany LorenzAttractor.new [1, 2]).get_points =
      (LorenzAttractor.stepMany LorenzAttractor.new [1, 2]).get_points :=
  lorenz_deterministic LorenzAttractor.new LorenzAttractor.new [1, 2] rfl

/-! ### C10: grain bookkeeping of a single topple -/

theorem sum_set_getD (l : List ℕ) (i v : ℕ) (h : i < l.length) :
    (l.set i v).sum + l.getD i 0 = l.sum + v := by
  induction l generalizing i with
  | nil => cases h
  | cons hd tl ih =>
      cases i with
      | zero => simp [List.getD_cons_zero]; omega
      | succ i =>
          simp only [List.set_cons_succ, List.sum_cons, List.getD_cons_succ]
          have := ih i (by simpa using h)
          omega

/-- C10: a single topple of an interior cell `(x, y)` (so `1 ≤ x ≤ width-2`,
`1 ≤ y ≤ height-2` on a grid of at least 3×3) decreases that cell by
`critical_mass`, increases each of its four orthogonal neighbors by exactly
one, and therefore changes the total grain count by `4 - critical_mass`
(stated additively over `ℕ`: new total + critical_mass = old total + 4); the
total is preserved exactly when `critical_mass = 4`.  The grid is modelled
over `ℕ`, which is the claim's "no `u8` overflow" proviso. -/
theorem sandpile_topple_grains (w h x y cm : ℕ) (grid : List ℕ)
    (hw : 3 ≤ w) (hh : 3 ≤ h)
    (hx1 : 1 ≤ x) (hx2 : x ≤ w - 2) (hy1 : 1 ≤ y) (hy2 : y ≤ h - 2)
    (hlen : grid.length = w * h)
    (hcm : cm ≤ grid.getD (y * w + x) 0) :
    (Sandpile.toppleAt w grid (y * w + x) cm).getD (y * w + x) 0
        = grid.getD (y * w + x) 0 - cm ∧
    (Sandpile.toppleAt w grid (y * w + x) cm).getD (y * w + x - 1) 0
        = grid.getD (y * w + x - 1) 0 + 1 ∧
    (Sandpile.toppleAt w grid (y * w + x) cm).getD (y * w + x + 1) 0
        = grid.getD (y * w + x + 1) 0 + 1 ∧
    (Sandpile.toppleAt w grid (y * w + x) cm).getD (y * w + x - w) 0
        = grid.getD (y * w + x - w) 0 + 1 ∧
    (Sandpile.toppleAt w grid (y * w + x) cm).getD (y * w + x + w) 0
        = grid.getD (y * w + x + w) 0 + 1 ∧
    (Sandpile.toppleAt w grid (y * w + x) cm).sum + cm = grid.sum + 4 ∧
    ((Sandpile.toppleAt w grid (y * w + x) cm).sum = grid.sum ↔ cm = 4) := by
  have hxw : x < w := by omega
  have hWle : w ≤ y * w := Nat.le_mul_of_pos_left w (by omega)
  have hup2 : (y + 2) * w ≤ w * h := by
    rw [Nat.mul_comm w h]
    exact Nat.mul_le_mul_right w (by omega)
  have hexp : (y + 2) * w = y * w + 2 * w := by ring
  -- all five touched indices are in bounds, and they are pairwise distinct
  have hb0 : y * w + x < grid.length := by rw [hlen]; omega
  have hb1 : y * w + x - 1 < grid.length := by rw [hlen]; omega
  have hb2 : y * w + x + 1 < grid.length := by rw [hlen]; omega
  have hb3 : y * w + x - w < grid.length := by rw [hlen]; omega
  have hb4 : y * w + x + w < grid.length := by rw [hlen]; omega
  unfold Sandpile.toppleAt
  dsimp only
  -- name the intermediate grids of the five sequential updates
  generalize hG0 : grid.set (y * w + x) (grid.getD (y * w + x) 0 - cm) = g0
  have hL0 : g0.length = grid.length := by rw [← hG0]; simp
  have s0 := sum_set_getD grid (y * w + x) (grid.getD (y * w + x) 0 - cm) hb0
  rw [hG0] at s0
  have e00 : g0.getD (y * w + x) 0 = grid.getD (y * w + x) 0 - cm := by
    rw [← hG0]; exact getD_set_self _ _ _ _ hb0
  have e01 : g0.getD (y * w + x - 1) 0 = grid.getD (y * w + x - 1) 0 := by
    rw [← hG0]; exact getD_set_ne _ _ _ _ _ (by omega)
  have e02 : g0.getD (y * w + x + 1) 0 = grid.getD (y * w + x + 1) 0 := by
    rw [← hG0]; exact getD_set_ne _ _ _ _ _ (by omega)
  have e03 : g0.getD (y * w + x - w) 0 = grid.getD (y * w + x - w) 0 := by
    rw [← hG0]; exact getD_set_ne _ _ _ _ _ (by omega)
  have e04 : g0.getD (y * w + x + w) 0 = grid.getD (y * w + x + w) 0 := by
    rw [← hG0]; exact getD_set_ne _ _ _ _ _ (by omega)
  generalize hG1 : g0.set (y * w + x - 1) (g0.getD (y * w + x - 1) 0 + 1) = g1
  have hL1 : g1.length = grid.length := by rw [← hG1, List.length_set]; exact hL0
  have s1 := sum_set_getD g0 (y * w + x - 1) (g0.getD (y * w + x - 1) 0 + 1)
    (by rw [hL0]; exact hb1)
  rw [hG1] at s1
  have e10 : g1.getD (y * w + x) 0 = g0.getD (y * w + x) 0 := by
    rw [← hG1]; exact getD_set_ne _ _ _ _ _ (by omega)
  have e11 : g1.getD (y * w + x - 1) 0 = g0.getD (y * w + x - 1) 0 + 1 := by
    rw [← hG1]; exact getD_set_self _ _ _ _ (by rw [hL0]; exact hb1)
  have e12 : g1.getD (y * w + x + 1) 0 = g0.getD (y * w + x + 1) 0 := by
    rw [← hG1]; exact getD_set_ne _ _ _ _ _ (by omega)
  have e13 : g1.getD (y * w + x - w) 0 = g0.getD (y * w + x - w) 0 := by
    rw [← hG1]; exact getD_set_ne _ _ _ _ _ (by omega)
  have e14 : g1.getD (y * w + x + w) 0 = g0.getD (y * w + x + w) 0 := by
    rw [← hG1]; exact getD_set_ne _ _ _ _ _ (by omega)
  generalize hG2 : g1.set (y * w + x + 1) (g1.getD (y * w + x + 1) 0 + 1) = g2
  have hL2 : g2.length = grid.length := by rw [← hG2, List.length_set]; exact hL1
  have s2 := sum_set_getD g1 (y * w + x + 1) (g1.getD (y * w + x + 1) 0 + 1)
    (by rw [hL1]; exact hb2)
  rw [hG2] at s2
  have e20 : g2.getD (y * w + x) 0 = g1.getD (y * w + x) 0 := by
    rw [← hG2]; exact getD_set_ne _ _ _ _ _ (by omega)
  have e21 : g2.getD (y * w + x - 1) 0 = g1.getD (y * w + x - 1) 0 := by
    rw [← hG2]; exact getD_set_ne _ _ _ _ _ (by omega)
  have e22 : g2.getD (y * w + x + 1) 0 = g1.getD (y * w + x + 1) 0 + 1 := by
    rw [← hG2]; exact getD_set_self _ _ _ _ (by rw [hL1]; exact hb2)
  have e23 : g2.getD (y * w + x - w) 0 = g1.getD (y * w + x - w) 0 := by
    rw [← hG2]; exact getD_set_ne _ _ _ _ _ (by omega)
  have e24 : g2.getD (y * w + x + w) 0 = g1.getD (y * w + x + w) 0 := by
    rw [← hG2]; exact getD_set_ne _ _ _ _ _ (by omega)
  generalize hG3 : g2.set (y * w + x - w) (g2.getD (y * w + x - w) 0 + 1) = g3
  have hL3 : g3.length = grid.length := by rw [← hG3, List.length_set]; exact hL2
  have s3 := sum_set_getD g2 (y * w + x - w) (g2.getD (y * w + x - w) 0 + 1)
    (by rw [hL2]; exact hb3)
  rw [hG3] at s3
  have e30 : g3.getD (y * w + x) 0 = g2.getD (y * w + x) 0 := by
    rw [← hG3]; exact getD_set_ne _ _ _ _ _ (by omega)
  have e31 : g3.getD (y * w + x - 1) 0 = g2.getD (y * w + x - 1) 0 := by
    rw [← hG3]; exact getD_set_ne _ _ _ _ _ (by omega)
  have e32 : g3.getD (y * w + x + 1) 0 = g2.getD (y * w + x + 1) 0 := by
    rw [← hG3]; exact getD_set_ne _ _ _ _ _ (by omega)
  have e33 : g3.getD (y * w + x - w) 0 = g2.getD (y * w + x - w) 0 + 1 := by
    rw [← hG3]; exact getD_set_self _ _ _ _ (by rw [hL2]; exact hb3)
  have e34 : g3.getD (y * w + x + w) 0 = g2.getD (y * w + x + w) 0 := by
    rw [← hG3]; exact getD_set_ne _ _ _ _ _ (by omega)
  have s4 := sum_set_getD g3 (y * w + x + w) (g3.getD (y * w + x + w) 0 + 1)
    (by rw [hL3]; exact hb4)
  have e40 : (g3.set (y * w + x + w) (g3.getD (y * w + x + w) 0 + 1)).getD
      (y * w + x) 0 = g3.getD (y * w + x) 0 :=
    getD_set_ne _ _ _ _ _ (by omega)
  have e41 : (g3.set (y * w + x + w) (g3.getD (y * w + x + w) 0 + 1)).getD
      (y * w + x - 1) 0 = g3.getD (y * w + x - 1) 0 :=
    getD_set_ne _ _ _ _ _ (by omega)
  have e42 : (g3.set (y * w + x + w) (g3.getD (y * w + x + w) 0 + 1)).getD
      (y * w + x + 1) 0 = g3.getD (y * w + x + 1) 0 :=
    getD_set_ne _ _ _ _ _ (by omega)
  have e43 : (g3.set (y * w + x + w) (g3.getD (y * w + x + w) 0 + 1)).getD
      (y * w + x - w) 0 = g3.getD (y * w + x - w) 0 :=
    getD_set_ne _ _ _ _ _ (by omega)
  have e44 : (g3.set (y * w + x + w) (g3.getD (y * w + x + w) 0 + 1)).getD
      (y * w + x + w) 0 = g3.getD (y * w + x + w) 0 + 1 :=
    getD_set_self _ _ _ _ (by rw [hL3]; exact hb4)
  refine ⟨?_, ?_, ?_, ?_, ?_, ?_, ?_⟩
  · rw [e40, e30, e20, e10, e00]
  · rw [e41, e31, e21, e11, e01]
  · rw [e42, e32, e22, e12, e02]
  · rw [e43, e33, e23, e13, e03]
  · rw [e44, e34, e24, e14, e04]
  · omega
  · omega

/-! ### C3: avalanche quiescence -/

theorem foldl_sweepStep_true (l : List ℕ) :
    ∀ st : Sandpile × Bool, st.2 = true →
      (l.foldl Sandpile.sweepStep st).2 = true := by
  induction l with
  | nil => intro st h; exact h
  | cons i l ih =>
      intro st h
      apply ih
      unfold Sandpile.sweepStep
      dsimp only
      split
      · rfl
      · exact h

theorem foldl_sweepStep_false (l : List ℕ) :
    ∀ (s s' : Sandpile), l.foldl Sandpile.sweepStep (s, false) = (s', false) →
      s' = s ∧ ∀ idx ∈ l, s.grid.getD idx 0 < s.critical_mass := by
  induction l with
  | nil =>
      intro s s' h
      simp only [List.foldl_nil, Prod.mk.injEq] at h
      exact ⟨h.1.symm, by simp⟩
  | cons i l ih =>
      intro s s' h
      rw [List.foldl_cons] at h
      by_cases hc : s.critical_mass ≤ s.grid.getD i 0
      · have hstep : (Sandpile.sweepStep (s, false) i).2 = true := by
          unfold Sandpile.sweepStep
          dsimp only
          rw [if_pos hc]
        have := foldl_sweepStep_true l _ hstep
        rw [h] at this
        cases this
      · have hstep : Sandpile.sweepStep (s, false) i = (s, false) := by
          unfold Sandpile.sweepStep
          dsimp only
          rw [if_neg hc]
        rw [hstep] at h
        rcases ih s s' h with ⟨h1, h2⟩
        refine ⟨h1, ?_⟩
        intro idx hidx
        rcases List.mem_cons.mp hidx with rfl | hidx
        · omega
        · exact h2 idx hidx

theorem foldl_sweepStep_quiescent (l : List ℕ) :
    ∀ s : Sandpile, (∀ idx ∈ l, s.grid.getD idx 0 < s.critical_mass) →
      l.foldl Sandpile.sweepStep (s, false) = (s, false) := by
  induction l with
  | nil => intro s _; rfl
  | cons i l ih =>
      intro s h
      rw [List.foldl_cons]
      have hstep : Sandpile.sweepStep (s, false) i = (s, false) := by
        unfold Sandpile.sweepStep
        dsimp only
        rw [if_neg (by have := h i (List.mem_cons_self i l); omega)]
      rw [hstep]
      exact ih s (fun idx hidx => h idx (List.mem_cons_of_mem i hidx))

theorem avalancheLoop_some_sweep (fuel : ℕ) :
    ∀ (s : Sandpile) (occ : Bool) (s' : Sandpile) (occ' : Bool),
      Sandpile.avalancheLoop fuel s occ = some (s', occ') →
      Sandpile.sweep s' = (s', false) := by
  induction fuel with
  | zero => intro s occ s' occ' h; cases h
  | succ fuel ih =>
      intro s occ s' occ' h
      unfold Sandpile.avalancheLoop at h
      by_cases hr : (Sandpile.sweep s).2 = true
      · rw [if_pos hr] at h
        exact ih _ _ _ _ h
      · rw [if_neg hr] at h
        simp only [Option.some.injEq, Prod.mk.injEq] at h
        have hs2 : (Sandpile.sweep s).2 = false := Bool.not_eq_true _ |>.mp hr
        have hsw : Sandpile.sweep s = ((Sandpile.sweep s).1, false) :=
          Prod.ext rfl hs2
        have h1 : (Sandpile.sweep s).1 = s :=
          (foldl_sweepStep_false _ s (Sandpile.sweep s).1 hsw).1
        have hss : s' = s := by rw [← h.1, h1]
        subst hss
        rw [hsw, h1]

theorem sweep_eq_of_quiescent (s : Sandpile) (h : Sandpile.interiorQuiescent s) :
    Sandpile.sweep s = (s, false) :=
  foldl_sweepStep_quiescent _ s h

theorem sweep_some_quiescent (s : Sandpile) (h : Sandpile.sweep s = (s, false)) :
    Sandpile.interiorQuiescent s := by
  unfold Sandpile.sweep at h
  exact (foldl_sweepStep_false _ _ _ h).2

/-- C3 counterexample: from the concrete state `spEx` (3×3 grid, critical
mass 4, center and the border cell above it holding 3 grains each), a single
`drop_sand` produces `spEx'`; on that state the claim fails twice over:
re-running the avalanche loop is not a no-op on the simulation state (it
clears the `avalanche_sites` markers), and a cell of the grid — the border
cell at flat index 1, which the interior-only topple loop never visits —
holds a value equal to the critical mass. -/
theorem sandpile_claim_counterexample :
    Sandpile.dropSandCenter 10 spEx = some spEx' ∧
    Sandpile.avalanche 10 spEx' ≠ some spEx' ∧
    ¬ (∀ c ∈ spEx'.grid, c < spEx'.critical_mass) := by
  refine ⟨by decide, by decide, by decide⟩

/-- C3 amended: whenever `drop_sand` completes (the avalanche loop reached
quiescence), no *interior* cell holds `critical_mass` grains or more — border
cells may, since the topple loop only visits `1..width-1 × 1..height-1` — and
re-running the avalanche loop is a no-op on the grid and the counters: the
only state change is that the `avalanche_sites` markers are cleared. -/
theorem avalanche_some_quiescent (fuel : ℕ) (s s' : Sandpile)
    (h : Sandpile.avalanche fuel s = some s') :
    Sandpile.interiorQuiescent s' := by
  unfold Sandpile.avalanche at h
  dsimp only at h
  rcases hloop : Sandpile.avalancheLoop fuel
      { s with
        avalanche_sites := List.replicate s.avalanche_sites.length false }
      false with - | pair
  · rw [hloop] at h
    cases h
  · rw [hloop] at h
    rcases pair with ⟨s1, occ⟩
    have hsweep := avalancheLoop_some_sweep fuel _ _ _ _ hloop
    have hq1 := sweep_some_quiescent _ hsweep
    simp only [Option.some.injEq] at h
    cases occ
    · simp only [Bool.false_eq_true, if_false] at h
      rw [← h]
      exact hq1
    · simp only [if_true] at h
      rw [← h]
      intro idx hidx
      exact hq1 idx hidx

/-- C3 amended, part 2 helper: a completed `drop_sand` leaves the state
interior-quiescent. -/
theorem sandpile_drop_quiescent (fuel fuel' : ℕ) (s s' : Sandpile) (x y : ℕ)
    (hf : 1 ≤ fuel') (h : Sandpile.dropSandAt fuel s x y = some s') :
    Sandpile.interiorQuiescent s' ∧
    Sandpile.avalanche fuel' s' =
      some { s' with
             avalanche_sites :=
               List.replicate s'.avalanche_sites.length false } := by
  have hq : Sandpile.interiorQuiescent s' :=
    avalanche_some_quiescent fuel _ s' h
  refine ⟨hq, ?_⟩
  rcases fuel' with - | fuel''
  · omega
  · have hsweep :
        Sandpile.sweep
          { s' with
            avalanche_sites :=
              List.replicate s'.avalanche_sites.length false } =
          ({ s' with
             avalanche_sites :=
               List.replicate s'.avalanche_sites.length false }, false) :=
      sweep_eq_of_quiescent _ (fun idx hidx => hq idx hidx)
    unfold Sandpile.avalanche Sandpile.avalancheLoop
    dsimp only
    rw [hsweep]
    rfl

/-- Witness for C3: the concrete drop from `spEx` terminates with fuel 10 and
yields `spEx'`, which is interior-quiescent and on which re-running the
avalanche only clears the markers. -/
theorem sandpile_drop_quiescent_witness :
    Sandpile.interiorQuiescent spEx' ∧
    Sandpile.avalanche 1 spEx' =
      some { spEx' with
             avalanche_sites :=
               List.replicate spEx'.avalanche_sites.length false } :=
  sandpile_drop_quiescent 10 1 spEx spEx' 1 1 (by decide) (by decide)

/-- Witness for C10: a concrete 3×3 grid whose center holds four grains; the
topple moves one grain to each orthogonal neighbor and preserves the total
(the critical mass is four). -/
theorem sandpile_topple_grains_witness :
    (Sandpile.toppleAt 3 [0, 3, 0, 0, 4, 0, 0, 0, 0] (1 * 3 + 1) 4).sum + 4 =
      ([0, 3, 0, 0, 4, 0, 0, 0, 0] : List ℕ).sum + 4 := by
  have h := sandpile_topple_grains 3 3 1 1 4 [0, 3, 0, 0, 4, 0, 0, 0, 0]
    (by decide) (by decide) (by decide) (by decide) (by decide) (by decide)
    (by decide) (by decide)
  have h6 := h.2.2.2.2.2.1
  omega

/-! ### C9: Newton's third law in `compute_forces` -/

theorem addAt_length (l : List Vec3) (i : ℕ) (v : Vec3) :
    (NBodyGravity.addAt l i v).length = l.length := by
  simp [NBodyGravity.addAt]

theorem getD_addAt_self (l : List Vec3) (i : ℕ) (v : Vec3) (h : i < l.length) :
    (NBodyGravity.addAt l i v).getD i 0 = l.getD i 0 + v :=
  getD_set_self _ _ _ _ h

theorem getD_addAt_ne (l : List Vec3) (i j : ℕ) (v : Vec3) (h : i ≠ j) :
    (NBodyGravity.addAt l i v).getD j 0 = l.getD j 0 :=
  getD_set_ne _ _ _ _ _ h

theorem inner_fold_length (g : ℕ → Vec3) (m : ℕ) :
    ∀ (js : List ℕ) (fs : List Vec3),
      (js.foldl (fun fs2 j =>
          NBodyGravity.addAt (NBodyGravity.addAt fs2 m (g j)) j (-(g j))) fs).length =
        fs.length := by
  intro js
  induction js with
  | nil => intro fs; rfl
  | cons j js ih =>
      intro fs
      rw [List.foldl_cons, ih, addAt_length, addAt_length]

theorem inner_fold_getD (g : ℕ → Vec3) (m : ℕ) :
    ∀ (js : List ℕ) (fs : List Vec3), m < fs.length →
      (∀ j ∈ js, j < fs.length ∧ m < j) → js.Nodup →
      ∀ k, k < fs.length →
      (js.foldl (fun fs2 j =>
          NBodyGravity.addAt (NBodyGravity.addAt fs2 m (g j)) j (-(g j))) fs).getD k 0 =
        fs.getD k 0 +
          (if k = m then (js.map g).sum
           else if k ∈ js then -(g k) else 0) := by
  intro js
  induction js with
  | nil =>
      intro fs _ _ _ k _
      simp
  | cons j js ih =>
      intro fs hm hjs hnd k hk
      rw [List.foldl_cons]
      have hj : j < fs.length ∧ m < j := hjs j (List.mem_cons_self j js)
      have hmj : m ≠ j := Nat.ne_of_lt hj.2
      have hlen2 : (NBodyGravity.addAt (NBodyGravity.addAt fs m (g j)) j
          (-(g j))).length = fs.length := by
        rw [addAt_length, addAt_length]
      rw [ih _ (by rw [hlen2]; exact hm)
        (by intro j' hj'; rw [hlen2]; exact hjs j' (List.mem_cons_of_mem j hj'))
        (List.nodup_cons.mp hnd).2 k (by rw [hlen2]; exact hk)]
      rcases eq_or_ne k m with rfl | hkm
      · have h1 : (NBodyGravity.addAt (NBodyGravity.addAt fs k (g j)) j
            (-(g j))).getD k 0 = fs.getD k 0 + g j := by
          rw [getD_addAt_ne _ _ _ _ (Ne.symm hmj), getD_addAt_self _ _ _ hk]
        rw [h1]
        simp only [if_pos rfl, List.map_cons, List.sum_cons]
        abel_nf
      · rcases eq_or_ne k j with rfl | hkj
        · have h1 : (NBodyGravity.addAt (NBodyGravity.addAt fs m (g k)) k
              (-(g k))).getD k 0 = fs.getD k 0 + -(g k) := by
            rw [getD_addAt_self _ _ _ (by rw [addAt_length]; exact hj.1),
              getD_addAt_ne _ _ _ _ hmj]
          rw [h1]
          have hknotin : k ∉ js := (List.nodup_cons.mp hnd).1
          rw [if_neg hkm, if_neg hknotin, if_neg hkm,
            if_pos (List.mem_cons_self k js)]
          abel
        · have h1 : (NBodyGravity.addAt (NBodyGravity.addAt fs m (g j)) j
              (-(g j))).getD k 0 = fs.getD k 0 := by
            rw [getD_addAt_ne _ _ _ _ (Ne.symm hkj), getD_addAt_ne _ _ _ _
              (fun hmk => hkm (hmk.symm))]
          rw [h1, if_neg hkm, if_neg hkm]
          have hmem : (k ∈ j :: js) ↔ (k ∈ js) := by
            rw [List.mem_cons]
            exact ⟨fun h => h.elim (fun he => absurd he hkj) id, Or.inr⟩
          rcases Classical.em (k ∈ js) with hin | hout
          · rw [if_pos hin, if_pos (hmem.mpr hin)]
          · rw [if_neg hout, if_neg (fun hc => hout (hmem.mp hc))]

theorem outer_fold_length (g : ℕ → ℕ → Vec3) (len : ℕ) :
    ∀ (ms : List ℕ) (fs : List Vec3),
      (ms.foldl (fun fs i =>
          (List.range' (i + 1) (len - (i + 1))).foldl (fun fs2 j =>
            NBodyGravity.addAt (NBodyGravity.addAt fs2 i (g i j)) j (-(g i j))) fs)
        fs).length = fs.length := by
  intro ms
  induction ms with
  | nil => intro fs; rfl
  | cons i ms ih =>
      intro fs
      rw [List.foldl_cons, ih, inner_fold_length]

theorem outer_fold_getD (g : ℕ → ℕ → Vec3) (len : ℕ) :
    ∀ (m : ℕ), m ≤ len → ∀ k, k < len →
      ((List.range m).foldl (fun fs i =>
          (List.range' (i + 1) (len - (i + 1))).foldl (fun fs2 j =>
            NBodyGravity.addAt (NBodyGravity.addAt fs2 i (g i j)) j (-(g i j))) fs)
        (List.replicate len (0 : Vec3))).getD k 0 =
      (if k < m then ((List.range' (k + 1) (len - (k + 1))).map (g k)).sum else 0)
        - ((List.range (min m k)).map (fun i => g i k)).sum := by
  intro m
  induction m with
  | zero =>
      intro _ k hk
      simp [List.getD, List.getElem?_replicate, hk]
  | succ m ih =>
      intro hm k hk
      rw [List.range_succ, List.foldl_append, List.foldl_cons, List.foldl_nil]
      have hlenF : ((List.range m).foldl (fun fs i =>
          (List.range' (i + 1) (len - (i + 1))).foldl (fun fs2 j =>
            NBodyGravity.addAt (NBodyGravity.addAt fs2 i (g i j)) j (-(g i j))) fs)
          (List.replicate len (0 : Vec3))).length = len := by
        rw [outer_fold_length, List.length_replicate]
      rw [inner_fold_getD (g m) m _ _ (by rw [hlenF]; omega)
        (by
          intro j hj
          rw [List.mem_range'_1] at hj
          rw [hlenF]
          omega)
        (List.nodup_range' _ _) k (by rw [hlenF]; exact hk)]
      rw [ih (by omega) k hk]
      rcases Nat.lt_trichotomy k m with hlt | rfl | hgt
      · have h1 : ¬ k = m := by omega
        have h2 : k ∉ List.range' (m + 1) (len - (m + 1)) := by
          intro hc
          rw [List.mem_range'_1] at hc
          omega
        have h3 : k < m + 1 := by omega
        have h4 : min m k = k := by omega
        have h5 : min (m + 1) k = k := by omega
        rw [if_neg h1, if_neg h2, if_pos hlt, if_pos h3, h4, h5]
        abel
      · have h1 : ¬ k < k := by omega
        have h3 : k < k + 1 := by omega
        have h4 : min k k = k := by omega
        have h5 : min (k + 1) k = k := by omega
        rw [if_pos rfl, if_neg h1, if_pos h3, h4, h5]
        abel
      · have h1 : ¬ k = m := by omega
        have h2 : k ∈ List.range' (m + 1) (len - (m + 1)) := by
          rw [List.mem_range'_1]
          omega
        have h3 : ¬ k < m := by omega
        have h3' : ¬ k < m + 1 := by omega
        have h4 : min m k = m := by omega
        have h5 : min (m + 1) k = m + 1 := by omega
        rw [if_neg h1, if_pos h2, if_neg h3, if_neg h3', h4, h5,
          List.range_succ, List.map_append, List.sum_append]
        simp only [List.map_cons, List.map_nil, List.sum_cons, List.sum_nil]
        abel

/-- C9: in `NBodyGravity::compute_forces`, every unordered pair of distinct
bodies contributes exactly once: the accumulated force on body `k` is the sum,
over the pairs `(k, j)` with `j > k`, of the pair force `pairForce` — whose
scalar coefficient is `force_mag = G * m_i * m_j / (r² + ε²)` applied along
the separation vector divided by `dist = sqrt(r² + ε²)` — minus the sum, over
the pairs `(i, k)` with `i < k`, of the same pair force: each pair's
contribution lands with equal magnitude and opposite sign on its two bodies
(Newton's third law). -/
theorem nbody_forces_newton_third_law (env : FloatEnv) (n : NBodyGravity)
    (k : ℕ) (hk : k < n.bodies.length) :
    (n.compute_forces env).getD k 0 =
      ((List.range' (k + 1) (n.bodies.length - (k + 1))).map (fun j =>
          NBodyGravity.pairForce env n.gravitational_constant n.softening
            (n.bodies.getD k Body.dummy) (n.bodies.getD j Body.dummy))).sum
      - ((List.range k).map (fun i =>
          NBodyGravity.pairForce env n.gravitational_constant n.softening
            (n.bodies.getD i Body.dummy) (n.bodies.getD k Body.dummy))).sum := by
  have hc : n.compute_forces env =
      (List.range n.bodies.length).foldl (fun fs i =>
        (List.range' (i + 1) (n.bodies.length - (i + 1))).foldl (fun fs2 j =>
          NBodyGravity.addAt (NBodyGravity.addAt fs2 i
            (NBodyGravity.pairForce env n.gravitational_constant n.softening
              (n.bodies.getD i Body.dummy) (n.bodies.getD j Body.dummy))) j
            (-(NBodyGravity.pairForce env n.gravitational_constant n.softening
              (n.bodies.getD i Body.dummy) (n.bodies.getD j Body.dummy)))) fs)
        (List.replicate n.bodies.length (0 : Vec3)) := rfl
  rw [hc, outer_fold_getD (fun i j =>
      NBodyGravity.pairForce env n.gravitational_constant n.softening
        (n.bodies.getD i Body.dummy) (n.bodies.getD j Body.dummy))
    n.bodies.length n.bodies.length le_rfl k hk]
  rw [if_pos hk, show min n.bodies.length k = k by omega]

/-- Witness for C9: the concrete two-body configuration `nbodyEx`; the force
on body 0 is the single pair contribution, positively. -/
theorem nbody_forces_newton_third_law_witness :
    (nbodyEx.compute_forces FloatEnv.zeroes).getD 0 0 =
      ((List.range' 1 (nbodyEx.bodies.length - 1)).map (fun j =>
          NBodyGravity.pairForce FloatEnv.zeroes nbodyEx.gravitational_constant
            nbodyEx.softening (nbodyEx.bodies.getD 0 Body.dummy)
            (nbodyEx.bodies.getD j Body.dummy))).sum
      - ((List.range 0).map (fun i =>
          NBodyGravity.pairForce FloatEnv.zeroes nbodyEx.gravitational_constant
            nbodyEx.softening (nbodyEx.bodies.getD i Body.dummy)
            (nbodyEx.bodies.getD 0 Body.dummy))).sum :=
  nbody_forces_newton_third_law FloatEnv.zeroes nbodyEx 0 (by decide)

end SimCore
